import Mathlib

/-!
A verification development for the alternating-minimization driver of the
nonnegative matrix factorization notebook (`nonneg_matrix_fact.ipynb`).

The driver keeps a target matrix `A`, a current left factor `Y`, a current
right factor `X` (absent until the first iteration produces it) and a
residual array preinitialized to zeros.  For `iter_num = 1 .. MAX_ITERS` it
builds the convex subproblem `minimize ‖A - Y*X‖_F` with the free factor
constrained nonnegative (`X` free on odd iterations, `Y` free on even ones),
hands it to an external convex solver, aborts with
`Exception("Solver did not converge!")` when the reported status is not
optimal, records the reported objective value at `residual[iter_num - 1]`,
and freezes the solved factor for the next iteration.

Matrices are dense lists of rows of rationals.  The external solver is an
oracle mapping the call's iteration number and the submitted subproblem to a
result.  The run is instrumented with an event trace (loop entries and
solver invocations) so that control-flow claims are statable.
-/

namespace NMF

/-- Dense matrix: a list of rows of rationals. -/
abbrev Mat := List (List ℚ)

/-- Row count of a matrix. -/
def rows (M : Mat) : ℕ := M.length

/-- Column count of a matrix, read off the first row. -/
def cols (M : Mat) : ℕ := (M.headD []).length

/-- Status reported by the external convex solver. -/
inductive SolverStatus where
  | optimal
  | optimalInaccurate
  | infeasible
  | unbounded
  | solverError
deriving DecidableEq

/-- Result of one solver invocation: the reported status, the objective
value (`prob.value`), and the values of the free factor variable. -/
structure SolverResult where
  status : SolverStatus
  objectiveValue : ℚ
  freeFactorValues : Mat
deriving DecidableEq

/-- Which factor of the product `Y*X` is held fixed in a subproblem:
`left` means `Y` is the fixed constant (odd iterations, `X` free),
`right` means `X` is the fixed constant (even iterations, `Y` free). -/
inductive Role where
  | left
  | right
deriving DecidableEq

/-- The convex subproblem handed to the solver: minimize the Frobenius norm
of `target - Y*X` over the nonnegative free factor, with the other factor
fixed. -/
structure Subproblem where
  target : Mat
  fixedFactor : Mat
  fixedRole : Role
  freeShape : ℕ × ℕ
deriving DecidableEq

/-- The external solver collaborator: from the iteration number of the call
and the submitted subproblem to a result. -/
abbrev Solver := ℕ → Subproblem → SolverResult

/-- The failure modes the loop body can hit: a library dimension error while
building the expression `A - Y*X`, a reference to `X` before any iteration
defined it, or the explicit `raise Exception("Solver did not converge!")`. -/
inductive RunError where
  | dimensionMismatch
  | undefinedFactor
  | convergence (msg : String)
deriving DecidableEq

/-- The message of the exception the loop raises on a non-optimal status. -/
def solverFailMsg : String := "Solver did not converge!"

/-- Observable events of a run: entering a loop iteration, and invoking the
solver at a given iteration on a given subproblem. -/
inductive Event where
  | enterIteration (i : ℕ)
  | solverCall (i : ℕ) (sp : Subproblem)
deriving DecidableEq

/-- The mutable bindings of the notebook cell: the target `A`, the current
left factor `Y`, the current right factor `X` (absent before iteration 1),
and the residual array. -/
structure RunState where
  A : Mat
  Y : Mat
  X : Option Mat
  residual : List ℚ
deriving DecidableEq

/-- One loop iteration of the notebook cell.  Odd iterations fix `Y` and
free `X` (shape `(k, n)`); even iterations fix `X` and free `Y` (shape
`(m, k)`).  The expression `A - Y*X` is only well formed when the fixed
factor's dimensions agree with `k` and with `A`; otherwise the library
raises a dimension error before any solver call.  On a non-optimal status
the iteration raises; on an optimal one it records the objective value at
index `iterNum - 1` and freezes the solved factor. -/
def iterStep (k : ℕ) (solver : Solver) (iterNum : ℕ) (s : RunState) :
    Except RunError RunState × List Event :=
  if iterNum % 2 = 1 then
    if cols s.Y = k ∧ rows s.Y = rows s.A then
      let sp : Subproblem := ⟨s.A, s.Y, Role.left, (k, cols s.A)⟩
      let res := solver iterNum sp
      if res.status = SolverStatus.optimal then
        (Except.ok ⟨s.A, s.Y, some res.freeFactorValues,
            s.residual.set (iterNum - 1) res.objectiveValue⟩,
          [Event.solverCall iterNum sp])
      else
        (Except.error (RunError.convergence solverFailMsg),
          [Event.solverCall iterNum sp])
    else
      (Except.error RunError.dimensionMismatch, [])
  else
    match s.X with
    | none => (Except.error RunError.undefinedFactor, [])
    | some x =>
      if rows x = k ∧ cols x = cols s.A then
        let sp : Subproblem := ⟨s.A, x, Role.right, (rows s.A, k)⟩
        let res := solver iterNum sp
        if res.status = SolverStatus.optimal then
          (Except.ok ⟨s.A, res.freeFactorValues, some x,
              s.residual.set (iterNum - 1) res.objectiveValue⟩,
            [Event.solverCall iterNum sp])
        else
          (Except.error (RunError.convergence solverFailMsg),
            [Event.solverCall iterNum sp])
      else
        (Except.error RunError.dimensionMismatch, [])

/-- The alternating-minimization loop, driven by remaining fuel and the
current iteration number.  Returns the error (if the run aborted), the
final bindings, and the event trace. -/
def runLoop (k : ℕ) (solver : Solver) :
    ℕ → ℕ → RunState → Option RunError × RunState × List Event
  | 0, _, s => (none, s, [])
  | fuel + 1, iterNum, s =>
    match iterStep k solver iterNum s with
    | (Except.error e, evs) => (some e, s, Event.enterIteration iterNum :: evs)
    | (Except.ok s2, evs) =>
      let rest := runLoop k solver fuel (iterNum + 1) s2
      (rest.1, rest.2.1, Event.enterIteration iterNum :: evs ++ rest.2.2)

/-- Initial bindings of the cell: `Y = Y_init`, no `X` yet, and
`residual = np.zeros(MAX_ITERS)`. -/
def initState (A Y0 : Mat) (maxIters : ℕ) : RunState :=
  ⟨A, Y0, none, List.replicate maxIters 0⟩

/-- The full instrumented run: iterations `1 .. maxIters` from the initial
bindings. -/
def runFull (A Y0 : Mat) (k maxIters : ℕ) (solver : Solver) :
    Option RunError × RunState × List Event :=
  runLoop k solver maxIters 1 (initState A Y0 maxIters)

/-- The driver's contract view of a run: either an error, or the final
`(Y, X, residual_history)` triple. -/
def run (A Y0 : Mat) (k maxIters : ℕ) (solver : Solver) :
    Except RunError (Mat × Option Mat × List ℚ) :=
  match runFull A Y0 k maxIters solver with
  | (some e, _, _) => Except.error e
  | (none, s, _) => Except.ok (s.Y, s.X, s.residual)

/-- The event trace of a run. -/
def runEvents (A Y0 : Mat) (k maxIters : ℕ) (solver : Solver) : List Event :=
  (runFull A Y0 k maxIters solver).2.2

/-- The solver invocations recorded in an event trace, as pairs of the
iteration number and the submitted subproblem. -/
def solverCalls (evs : List Event) : List (ℕ × Subproblem) :=
  evs.filterMap fun e =>
    match e with
    | Event.solverCall i sp => some (i, sp)
    | _ => none

/-- Entrywise lower bound on a matrix. -/
def matGe (M : Mat) (c : ℚ) : Prop := ∀ r ∈ M, ∀ v ∈ r, c ≤ v

instance (M : Mat) (c : ℚ) : Decidable (matGe M c) := by
  unfold matGe
  infer_instance

/-! Concrete material for witnesses and counterexamples. -/

/-- A concrete 2×2 target matrix. -/
def A2 : Mat := [[1, 0], [0, 1]]

/-- A concrete 2×1 initial left factor. -/
def Y2 : Mat := [[1], [1]]

/-- A concrete 1×1 matrix, shape-incompatible with `A2`. -/
def Y1 : Mat := [[1]]

/-- A solver stub that always reports optimal, with objective 1 and an
all-ones free factor of the requested shape. -/
def sOpt : Solver := fun _ sp =>
  ⟨SolverStatus.optimal, 1, List.replicate sp.freeShape.1 (List.replicate sp.freeShape.2 1)⟩

/-- A solver stub that always reports infeasible. -/
def sBad : Solver := fun _ _ => ⟨SolverStatus.infeasible, 0, []⟩

/-- A solver stub that reports optimal on the first call and a solver error
afterwards. -/
def sBad2 : Solver := fun i sp =>
  if i = 1 then
    ⟨SolverStatus.optimal, 1, List.replicate sp.freeShape.1 (List.replicate sp.freeShape.2 1)⟩
  else
    ⟨SolverStatus.solverError, 0, []⟩

example : run A2 Y2 1 2 sOpt =
    Except.ok ([[1], [1]], some [[1, 1]], [1, 1]) := rfl

example : run A2 Y2 1 2 sBad =
    Except.error (RunError.convergence solverFailMsg) := rfl

example : runEvents A2 Y1 1 3 sOpt = [Event.enterIteration 1] := by decide

/-- Inversion for a successful loop iteration: exactly one solver call was
made, its status was optimal, the target of the subproblem is `A`, `A` is
unchanged, the objective value was recorded at index `iterNum - 1`, and the
factor matching the iteration's parity was frozen while the other one was
kept. -/
lemma iterStep_ok (k : ℕ) (solver : Solver) (i : ℕ) (s s2 : RunState) (evs : List Event)
    (h : iterStep k solver i s = (Except.ok s2, evs)) :
    ∃ sp : Subproblem,
      evs = [Event.solverCall i sp] ∧
      (solver i sp).status = SolverStatus.optimal ∧
      sp.target = s.A ∧
      s2.A = s.A ∧
      s2.residual = s.residual.set (i - 1) (solver i sp).objectiveValue ∧
      (i % 2 = 1 →
        sp.fixedFactor = s.Y ∧ sp.fixedRole = Role.left ∧ sp.freeShape = (k, cols s.A) ∧
        s2.Y = s.Y ∧ s2.X = some (solver i sp).freeFactorValues) ∧
      (¬i % 2 = 1 →
        ∃ x, s.X = some x ∧ sp.fixedFactor = x ∧ sp.fixedRole = Role.right ∧
          sp.freeShape = (rows s.A, k) ∧
          s2.Y = (solver i sp).freeFactorValues ∧ s2.X = some x) := by
  simp only [iterStep] at h
  by_cases hpar : i % 2 = 1
  · rw [if_pos hpar] at h
    by_cases hsh : cols s.Y = k ∧ rows s.Y = rows s.A
    · rw [if_pos hsh] at h
      by_cases hst :
          (solver i ⟨s.A, s.Y, Role.left, (k, cols s.A)⟩).status = SolverStatus.optimal
      · rw [if_pos hst] at h
        injection h with h1 h2
        injection h1 with h1
        subst h2
        subst h1
        refine ⟨⟨s.A, s.Y, Role.left, (k, cols s.A)⟩, rfl, hst, rfl, rfl, rfl, ?_, ?_⟩
        · exact fun _ => ⟨rfl, rfl, rfl, rfl, rfl⟩
        · exact fun hc => absurd hpar hc
      · rw [if_neg hst] at h
        simp at h
    · rw [if_neg hsh] at h
      simp at h
  · rw [if_neg hpar] at h
    rcases hX : s.X with _ | x <;> rw [hX] at h <;> dsimp only at h
    · simp at h
    · by_cases hsh : rows x = k ∧ cols x = cols s.A
      · rw [if_pos hsh] at h
        by_cases hst :
            (solver i ⟨s.A, x, Role.right, (rows s.A, k)⟩).status = SolverStatus.optimal
        · rw [if_pos hst] at h
          injection h with h1 h2
          injection h1 with h1
          subst h2
          subst h1
          refine ⟨⟨s.A, x, Role.right, (rows s.A, k)⟩, rfl, hst, rfl, rfl, rfl, ?_, ?_⟩
          · exact fun hc => absurd hc hpar
          · exact fun _ => ⟨x, rfl, rfl, rfl, rfl, rfl, rfl⟩
        · rw [if_neg hst] at h
          simp at h
      · rw [if_neg hsh] at h
        simp at h

/-- Inversion for a failed loop iteration: either the expression `A - Y*X`
could not be built (no solver call, a dimension or undefined-name error), or
one solver call was made, its status was not optimal, and the raised error
is the convergence exception with its fixed message. -/
lemma iterStep_error (k : ℕ) (solver : Solver) (i : ℕ) (s : RunState) (e : RunError)
    (evs : List Event) (h : iterStep k solver i s = (Except.error e, evs)) :
    (evs = [] ∧ (e = RunError.dimensionMismatch ∨ e = RunError.undefinedFactor)) ∨
    (∃ sp : Subproblem,
      evs = [Event.solverCall i sp] ∧
      ¬(solver i sp).status = SolverStatus.optimal ∧
      e = RunError.convergence solverFailMsg ∧
      sp.target = s.A ∧
      (i % 2 = 1 →
        sp.fixedFactor = s.Y ∧ sp.fixedRole = Role.left ∧ sp.freeShape = (k, cols s.A)) ∧
      (¬i % 2 = 1 →
        ∃ x, s.X = some x ∧ sp.fixedFactor = x ∧ sp.fixedRole = Role.right ∧
          sp.freeShape = (rows s.A, k))) := by
  simp only [iterStep] at h
  by_cases hpar : i % 2 = 1
  · rw [if_pos hpar] at h
    by_cases hsh : cols s.Y = k ∧ rows s.Y = rows s.A
    · rw [if_pos hsh] at h
      by_cases hst :
          (solver i ⟨s.A, s.Y, Role.left, (k, cols s.A)⟩).status = SolverStatus.optimal
      · rw [if_pos hst] at h
        simp at h
      · rw [if_neg hst] at h
        injection h with h1 h2
        injection h1 with h1
        subst h2
        refine Or.inr ⟨⟨s.A, s.Y, Role.left, (k, cols s.A)⟩, rfl, hst, h1.symm, rfl, ?_, ?_⟩
        · exact fun _ => ⟨rfl, rfl, rfl⟩
        · exact fun hc => absurd hpar hc
    · rw [if_neg hsh] at h
      injection h with h1 h2
      injection h1 with h1
      exact Or.inl ⟨h2.symm, Or.inl h1.symm⟩
  · rw [if_neg hpar] at h
    rcases hX : s.X with _ | x <;> rw [hX] at h <;> dsimp only at h
    · injection h with h1 h2
      injection h1 with h1
      exact Or.inl ⟨h2.symm, Or.inr h1.symm⟩
    · by_cases hsh : rows x = k ∧ cols x = cols s.A
      · rw [if_pos hsh] at h
        by_cases hst :
            (solver i ⟨s.A, x, Role.right, (rows s.A, k)⟩).status = SolverStatus.optimal
        · rw [if_pos hst] at h
          simp at h
        · rw [if_neg hst] at h
          injection h with h1 h2
          injection h1 with h1
          subst h2
          refine Or.inr ⟨⟨s.A, x, Role.right, (rows s.A, k)⟩, rfl, hst, h1.symm, rfl, ?_, ?_⟩
          · exact fun hc => absurd hc hpar
          · exact fun _ => ⟨x, rfl, rfl, rfl, rfl⟩
      · rw [if_neg hsh] at h
        injection h with h1 h2
        injection h1 with h1
        exact Or.inl ⟨h2.symm, Or.inl h1.symm⟩

/-- The target matrix field of the bindings is preserved by the whole loop,
whether or not it aborts. -/
lemma runLoop_A (k : ℕ) (solver : Solver) :
    ∀ (fuel iterNum : ℕ) (s : RunState),
      ((runLoop k solver fuel iterNum s).2.1).A = s.A := by
  intro fuel
  induction fuel with
  | zero => intro iterNum s; rfl
  | succ n ih =>
    intro iterNum s
    rcases hstep : iterStep k solver iterNum s with ⟨r, evs⟩
    cases r with
    | error e =>
      simp only [runLoop, hstep]
    | ok s2 =>
      obtain ⟨sp, _, _, _, hA, _⟩ := iterStep_ok k solver iterNum s s2 evs hstep
      simp only [runLoop, hstep]
      rw [ih (iterNum + 1) s2, hA]

@[simp]
lemma solverCalls_nil : solverCalls [] = [] := rfl

@[simp]
lemma solverCalls_cons_enter (i : ℕ) (l : List Event) :
    solverCalls (Event.enterIteration i :: l) = solverCalls l := rfl

@[simp]
lemma solverCalls_cons_call (i : ℕ) (sp : Subproblem) (l : List Event) :
    solverCalls (Event.solverCall i sp :: l) = (i, sp) :: solverCalls l := rfl

@[simp]
lemma solverCalls_append (l1 l2 : List Event) :
    solverCalls (l1 ++ l2) = solverCalls l1 ++ solverCalls l2 :=
  List.filterMap_append l1 l2 _

lemma getLast?_cons_of_mem {α : Type} {a x : α} {l : List α} (hx : x ∈ l) :
    (a :: l).getLast? = l.getLast? := by
  cases l with
  | nil => cases hx
  | cons b l2 => exact List.getLast?_cons_cons

/-- Every solver call recorded by the loop carries an iteration number in
the executed range, targets the (unchanged) matrix `A`, and fixes the factor
dictated by the parity of its iteration number: `Y` fixed with `X` free of
shape `(k, n)` on odd iterations, `X` fixed with `Y` free of shape `(m, k)`
on even iterations. -/
lemma runLoop_calls_mem (k : ℕ) (solver : Solver) :
    ∀ (fuel iterNum : ℕ) (s : RunState) (p : ℕ × Subproblem),
      p ∈ solverCalls (runLoop k solver fuel iterNum s).2.2 →
      iterNum ≤ p.1 ∧ p.1 < iterNum + fuel ∧ p.2.target = s.A ∧
      (p.1 % 2 = 1 → p.2.fixedRole = Role.left ∧ p.2.freeShape = (k, cols s.A)) ∧
      (¬p.1 % 2 = 1 → p.2.fixedRole = Role.right ∧ p.2.freeShape = (rows s.A, k)) := by
  intro fuel
  induction fuel with
  | zero =>
    intro iterNum s p hp
    simp [runLoop] at hp
  | succ n ih =>
    intro iterNum s p hp
    rcases hstep : iterStep k solver iterNum s with ⟨r, evs⟩
    cases r with
    | error e =>
      simp only [runLoop, hstep, solverCalls_cons_enter] at hp
      rcases iterStep_error k solver iterNum s e evs hstep with
        ⟨hevs, _⟩ | ⟨sp, hevs, _, _, htgt, hodd, heven⟩
      · rw [hevs] at hp
        simp at hp
      · rw [hevs] at hp
        simp only [solverCalls_cons_call, solverCalls_nil, List.mem_singleton] at hp
        subst hp
        refine ⟨le_refl _, by omega, htgt, ?_, ?_⟩
        · intro hparity
          exact ⟨(hodd hparity).2.1, (hodd hparity).2.2⟩
        · intro hparity
          obtain ⟨x, _, _, hrole, hshape⟩ := heven hparity
          exact ⟨hrole, hshape⟩
    | ok s2 =>
      simp only [runLoop, hstep, solverCalls_cons_enter, solverCalls_append,
        List.mem_append] at hp
      obtain ⟨sp, hevs, _, htgt, hA, _, hodd, heven⟩ :=
        iterStep_ok k solver iterNum s s2 evs hstep
      rcases hp with hp | hp
      · rw [hevs] at hp
        simp only [solverCalls_cons_call, solverCalls_nil, List.mem_singleton] at hp
        subst hp
        refine ⟨le_refl _, by omega, htgt, ?_, ?_⟩
        · intro hparity
          exact ⟨(hodd hparity).2.1, (hodd hparity).2.2.1⟩
        · intro hparity
          obtain ⟨x, _, _, hrole, hshape, _⟩ := heven hparity
          exact ⟨hrole, hshape⟩
      · have hrest := ih (iterNum + 1) s2 p hp
        rw [hA] at hrest
        exact ⟨by omega, by omega, hrest.2.2.1, hrest.2.2.2.1, hrest.2.2.2.2⟩

/-- C1: phase parity.  Every solver call the driver makes at an odd
iteration fixes `Y` (role `left`) and solves for a nonnegative `X` of shape
`(k, cols A)`, and every call at an even iteration fixes `X` (role `right`)
and solves for a nonnegative `Y` of shape `(rows A, k)`; the target of every
subproblem is `A`, and every call's iteration number lies in
`[1, maxIters]`.  No other phase assignment ever occurs. -/
theorem C1_phase_parity (A Y0 : Mat) (k maxIters : ℕ) (solver : Solver)
    (p : ℕ × Subproblem)
    (hp : p ∈ solverCalls (runEvents A Y0 k maxIters solver)) :
    1 ≤ p.1 ∧ p.1 ≤ maxIters ∧ p.2.target = A ∧
    (p.1 % 2 = 1 → p.2.fixedRole = Role.left ∧ p.2.freeShape = (k, cols A)) ∧
    (¬p.1 % 2 = 1 → p.2.fixedRole = Role.right ∧ p.2.freeShape = (rows A, k)) := by
  have h := runLoop_calls_mem k solver maxIters 1 (initState A Y0 maxIters) p hp
  exact ⟨h.1, by omega, h.2.2.1, h.2.2.2.1, h.2.2.2.2⟩

/-- Witness for C1 on a concrete two-iteration run: the call made at the
even iteration 2 fixes the right factor. -/
theorem C1_phase_parity_witness :
    ((2, (⟨A2, [[1, 1]], Role.right, (2, 1)⟩ : Subproblem)) : ℕ × Subproblem).2.fixedRole
      = Role.right :=
  ((C1_phase_parity A2 Y2 1 2 sOpt (2, ⟨A2, [[1, 1]], Role.right, (2, 1)⟩)
    (by decide)).2.2.2.2 (by decide)).1

/-- C9: frame property.  The target matrix `A` is never mutated: after every
execution, successful or aborted, the `A` binding of the final state equals
the input `A`. -/
theorem C9_A_never_mutated (A Y0 : Mat) (k maxIters : ℕ) (solver : Solver) :
    ((runFull A Y0 k maxIters solver).2.1).A = A :=
  runLoop_A k solver maxIters 1 (initState A Y0 maxIters)

/-- When the loop completes without error it makes one solver call per
iteration in order, keeps the residual array's length, leaves entries below
the starting iteration untouched, and the final residual entry `i - 1`
holds the objective value reported by the call of iteration `i`. -/
lemma runLoop_ok_spec (k : ℕ) (solver : Solver) :
    ∀ (fuel iterNum : ℕ) (s sf : RunState) (evs : List Event),
      runLoop k solver fuel iterNum s = (none, sf, evs) →
      1 ≤ iterNum →
      iterNum + fuel ≤ s.residual.length + 1 →
      sf.residual.length = s.residual.length ∧
      (solverCalls evs).map Prod.fst = List.range' iterNum fuel ∧
      (∀ q : ℕ, q < iterNum - 1 → sf.residual[q]? = s.residual[q]?) ∧
      ∀ p ∈ solverCalls evs,
        sf.residual[p.1 - 1]? = some ((solver p.1 p.2).objectiveValue) := by
  intro fuel
  induction fuel with
  | zero =>
    intro iterNum s sf evs h _ _
    injection h with h1 h2
    injection h2 with h2 h3
    subst h2
    subst h3
    exact ⟨rfl, rfl, fun q _ => rfl, fun p hp => absurd hp (List.not_mem_nil p)⟩
  | succ n ih =>
    intro iterNum s sf evs h hiter hlen
    rcases hstep : iterStep k solver iterNum s with ⟨r, evs1⟩
    cases r with
    | error e =>
      simp only [runLoop, hstep] at h
      simp at h
    | ok s2 =>
      rcases hrest : runLoop k solver n (iterNum + 1) s2 with ⟨r2, sf2, evs2⟩
      simp only [runLoop, hstep, hrest] at h
      injection h with h1 h2
      injection h2 with h2 h3
      subst h1
      obtain ⟨sp, hevs1, hst, _, _, hres, _, _⟩ :=
        iterStep_ok k solver iterNum s s2 evs1 hstep
      have hlen2 : s2.residual.length = s.residual.length := by
        rw [hres, List.length_set]
      have hspec := ih (iterNum + 1) s2 sf2 evs2 hrest (by omega) (by omega)
      subst h2
      subst h3
      subst hevs1
      refine ⟨by rw [hspec.1, hlen2], ?_, ?_, ?_⟩
      · simp only [solverCalls_cons_enter, List.cons_append, List.nil_append,
          solverCalls_cons_call, List.map_cons]
        rw [List.range'_succ, hspec.2.1]
      · intro q hq
        rw [hspec.2.2.1 q (by omega), hres, List.getElem?_set_ne (by omega)]
      · intro p hp
        simp only [solverCalls_cons_enter, List.cons_append, List.nil_append,
          solverCalls_cons_call, List.mem_cons] at hp
        rcases hp with hp | hp
        · subst hp
          rw [hspec.2.2.1 (iterNum - 1) (by omega), hres]

          exact List.getElem?_set_eq_of_lt _ (by omega)
        · exact hspec.2.2.2 p hp

/-- C2: on a successful run the returned residual history has length
exactly `maxIters`, the loop made exactly one solver call per iteration
`1 .. maxIters` in order, and the history's entry for iteration `i` (index
`i - 1`) is the objective value the solver reported at iteration `i`. -/
theorem C2_residual_history (A Y0 : Mat) (k maxIters : ℕ) (solver : Solver)
    (Yf : Mat) (Xf : Option Mat) (hist : List ℚ)
    (h : run A Y0 k maxIters solver = Except.ok (Yf, Xf, hist)) :
    hist.length = maxIters ∧
    (solverCalls (runEvents A Y0 k maxIters solver)).map Prod.fst
      = List.range' 1 maxIters ∧
    ∀ p ∈ solverCalls (runEvents A Y0 k maxIters solver),
      hist[p.1 - 1]? = some ((solver p.1 p.2).objectiveValue) := by
  rcases hfull : runFull A Y0 k maxIters solver with ⟨r, sf, evs⟩
  cases r with
  | some e =>
    simp only [run, hfull] at h
    exact Except.noConfusion h
  | none =>
    simp only [run, hfull] at h
    injection h with h
    have hh : sf.residual = hist := congrArg (fun t => t.2.2) h
    have hevs : runEvents A Y0 k maxIters solver = evs := by
      rw [runEvents, hfull]
    have hspec := runLoop_ok_spec k solver maxIters 1 (initState A Y0 maxIters)
      sf evs hfull (le_refl 1)
      (by simp only [initState, List.length_replicate]; omega)
    rw [hevs, ← hh]
    refine ⟨?_, hspec.2.1, hspec.2.2.2⟩
    rw [hspec.1]
    simp [initState]

/-- Witness for C2 on a concrete successful two-iteration run. -/
theorem C2_residual_history_witness :
    (solverCalls (runEvents A2 Y2 1 2 sOpt)).map Prod.fst = List.range' 1 2 :=
  (C2_residual_history A2 Y2 1 2 sOpt [[1], [1]] (some [[1, 1]]) [1, 1] rfl).2.1

/-- Every convergence abort of the loop carries the fixed exception message
and stems from a recorded solver call with a non-optimal status. -/
lemma runLoop_conv_imp (k : ℕ) (solver : Solver) :
    ∀ (fuel iterNum : ℕ) (s : RunState) (msg : String),
      (runLoop k solver fuel iterNum s).1 = some (RunError.convergence msg) →
      msg = solverFailMsg ∧
      ∃ p ∈ solverCalls (runLoop k solver fuel iterNum s).2.2,
        ¬(solver p.1 p.2).status = SolverStatus.optimal := by
  intro fuel
  induction fuel with
  | zero =>
    intro iterNum s msg h
    simp [runLoop] at h
  | succ n ih =>
    intro iterNum s msg h
    rcases hstep : iterStep k solver iterNum s with ⟨r, evs1⟩
    cases r with
    | error e =>
      simp only [runLoop, hstep] at h ⊢
      injection h with h
      subst h
      rcases iterStep_error k solver iterNum s _ evs1 hstep with
        ⟨_, hdim | hdim⟩ | ⟨sp, hevs, hne, hmsg, _⟩
      · simp at hdim
      · simp at hdim
      · injection hmsg with hmsg2
        subst hevs
        exact ⟨hmsg2, ⟨(iterNum, sp), by simp, hne⟩⟩
    | ok s2 =>
      simp only [runLoop, hstep] at h ⊢
      obtain ⟨hmsg, p, hp, hne⟩ := ih (iterNum + 1) s2 msg h
      exact ⟨hmsg, p, by simp [hp], hne⟩

/-- If any recorded solver call has a non-optimal status, the loop aborts
with the convergence exception and that call is the last solver
interaction of the run. -/
lemma runLoop_nonopt_imp (k : ℕ) (solver : Solver) :
    ∀ (fuel iterNum : ℕ) (s : RunState) (p : ℕ × Subproblem),
      p ∈ solverCalls (runLoop k solver fuel iterNum s).2.2 →
      ¬(solver p.1 p.2).status = SolverStatus.optimal →
      (runLoop k solver fuel iterNum s).1 = some (RunError.convergence solverFailMsg) ∧
      (solverCalls (runLoop k solver fuel iterNum s).2.2).getLast? = some p := by
  intro fuel
  induction fuel with
  | zero =>
    intro iterNum s p hp _
    simp [runLoop] at hp
  | succ n ih =>
    intro iterNum s p hp hne
    rcases hstep : iterStep k solver iterNum s with ⟨r, evs1⟩
    cases r with
    | error e =>
      simp only [runLoop, hstep] at hp ⊢
      rcases iterStep_error k solver iterNum s _ evs1 hstep with
        ⟨hevs, _⟩ | ⟨sp, hevs, _, hconv, _⟩
      · subst hevs
        simp at hp
      · subst hevs
        simp only [solverCalls_cons_enter, solverCalls_cons_call, solverCalls_nil,
          List.mem_singleton] at hp
        subst hp
        subst hconv
        exact ⟨rfl, by simp⟩
    | ok s2 =>
      simp only [runLoop, hstep] at hp ⊢
      obtain ⟨sp, hevs, hst, _⟩ := iterStep_ok k solver iterNum s s2 evs1 hstep
      subst hevs
      simp only [solverCalls_cons_enter, List.cons_append, List.nil_append,
        solverCalls_cons_call, List.mem_cons] at hp
      rcases hp with hp | hp
      · rw [hp] at hne
        exact absurd hst hne
      · have hrec := ih (iterNum + 1) s2 p hp hne
        refine ⟨hrec.1, ?_⟩
        simp only [solverCalls_cons_enter, List.cons_append, List.nil_append,
          solverCalls_cons_call]
        rw [getLast?_cons_of_mem hp]
        exact hrec.2

/-- C3: the run fails with the convergence exception if and only if some
recorded solver call reported a non-optimal status; and any such failing
call is the last solver interaction of the run (no later iteration, no
retry), with the run returning the error rather than any partial triple. -/
theorem C3_convergence_abort (A Y0 : Mat) (k maxIters : ℕ) (solver : Solver) :
    ((∃ msg, (runFull A Y0 k maxIters solver).1 = some (RunError.convergence msg)) ↔
      ∃ p ∈ solverCalls (runEvents A Y0 k maxIters solver),
        ¬(solver p.1 p.2).status = SolverStatus.optimal) ∧
    ∀ p ∈ solverCalls (runEvents A Y0 k maxIters solver),
      ¬(solver p.1 p.2).status = SolverStatus.optimal →
      (solverCalls (runEvents A Y0 k maxIters solver)).getLast? = some p ∧
      run A Y0 k maxIters solver = Except.error (RunError.convergence solverFailMsg) := by
  constructor
  · constructor
    · rintro ⟨msg, hmsg⟩
      exact (runLoop_conv_imp k solver maxIters 1 (initState A Y0 maxIters) msg hmsg).2
    · rintro ⟨p, hp, hne⟩
      exact ⟨solverFailMsg,
        (runLoop_nonopt_imp k solver maxIters 1 (initState A Y0 maxIters) p hp hne).1⟩
  · intro p hp hne
    have h := runLoop_nonopt_imp k solver maxIters 1 (initState A Y0 maxIters) p hp hne
    refine ⟨h.2, ?_⟩
    rcases hfull : runFull A Y0 k maxIters solver with ⟨r, sf, evs⟩
    have h1 : r = some (RunError.convergence solverFailMsg) := by
      have := h.1
      rw [show runLoop k solver maxIters 1 (initState A Y0 maxIters)
        = runFull A Y0 k maxIters solver from rfl, hfull] at this
      exact this
    subst h1
    simp only [run, hfull]

/-- Witness for C3: a solver stub that reports infeasible on its first call
makes the concrete run return the convergence error. -/
theorem C3_convergence_abort_witness :
    run A2 Y2 1 2 sBad = Except.error (RunError.convergence solverFailMsg) :=
  ((C3_convergence_abort A2 Y2 1 2 sBad).2 (1, ⟨A2, Y2, Role.left, (1, 2)⟩)
    (by decide) (by decide)).2

/-- C5 counterexample: two runs that fail at different iterations (1 and 2)
with different reported statuses (infeasible and solver error) raise exactly
the same exception value, so the raised error carries neither the iteration
number nor the reported status. -/
theorem C5_counterexample :
    run A2 Y2 1 2 sBad = run A2 Y2 1 2 sBad2 ∧
    run A2 Y2 1 2 sBad = Except.error (RunError.convergence solverFailMsg) ∧
    (solverCalls (runEvents A2 Y2 1 2 sBad)).map Prod.fst = [1] ∧
    (solverCalls (runEvents A2 Y2 1 2 sBad2)).map Prod.fst = [1, 2] ∧
    (sBad 1 ⟨A2, Y2, Role.left, (1, 2)⟩).status = SolverStatus.infeasible ∧
    (sBad2 2 ⟨A2, [[1, 1]], Role.right, (2, 1)⟩).status = SolverStatus.solverError :=
  ⟨rfl, rfl, by decide, by decide, rfl, rfl⟩

/-- C5 amended: when a non-optimal status aborts the run, the raised
exception is the convergence error with the fixed message
`"Solver did not converge!"`; it does not carry the iteration number or the
reported status. -/
theorem C5_amended_fixed_message (A Y0 : Mat) (k maxIters : ℕ) (solver : Solver)
    (msg : String)
    (h : run A Y0 k maxIters solver = Except.error (RunError.convergence msg)) :
    msg = solverFailMsg := by
  rcases hfull : runFull A Y0 k maxIters solver with ⟨r, sf, evs⟩
  cases r with
  | none =>
    simp only [run, hfull] at h
    exact Except.noConfusion h
  | some e =>
    simp only [run, hfull] at h
    injection h with h
    subst h
    have h1 : (runLoop k solver maxIters 1 (initState A Y0 maxIters)).1
        = some (RunError.convergence msg) := by
      rw [show runLoop k solver maxIters 1 (initState A Y0 maxIters)
        = runFull A Y0 k maxIters solver from rfl, hfull]
    exact (runLoop_conv_imp k solver maxIters 1 (initState A Y0 maxIters) msg h1).1

/-- Witness for the amended C5 at a concrete failing run. -/
theorem C5_amended_fixed_message_witness : solverFailMsg = solverFailMsg :=
  C5_amended_fixed_message A2 Y2 1 2 sBad solverFailMsg rfl

/-- When the current bindings are well shaped and the solver reports
optimal, the iteration succeeds. -/
lemma iterStep_succeeds (k : ℕ) (solver : Solver) (i : ℕ) (s : RunState)
    (hopt : ∀ (j : ℕ) (sp : Subproblem), (solver j sp).status = SolverStatus.optimal)
    (hYc : cols s.Y = k) (hYr : rows s.Y = rows s.A)
    (hXex : ¬i % 2 = 1 → ∃ x, s.X = some x)
    (hXsh : ∀ x, s.X = some x → rows x = k ∧ cols x = cols s.A) :
    ∃ s2 evs, iterStep k solver i s = (Except.ok s2, evs) := by
  by_cases hpar : i % 2 = 1
  · refine ⟨⟨s.A, s.Y,
      some (solver i ⟨s.A, s.Y, Role.left, (k, cols s.A)⟩).freeFactorValues,
      s.residual.set (i - 1)
        (solver i ⟨s.A, s.Y, Role.left, (k, cols s.A)⟩).objectiveValue⟩,
      [Event.solverCall i ⟨s.A, s.Y, Role.left, (k, cols s.A)⟩], ?_⟩
    simp only [iterStep]
    rw [if_pos hpar, if_pos ⟨hYc, hYr⟩, if_pos (hopt i _)]
  · obtain ⟨x, hx⟩ := hXex hpar
    refine ⟨⟨s.A,
      (solver i ⟨s.A, x, Role.right, (rows s.A, k)⟩).freeFactorValues, some x,
      s.residual.set (i - 1)
        (solver i ⟨s.A, x, Role.right, (rows s.A, k)⟩).objectiveValue⟩,
      [Event.solverCall i ⟨s.A, x, Role.right, (rows s.A, k)⟩], ?_⟩
    simp only [iterStep]
    rw [if_neg hpar, hx]
    dsimp only
    rw [if_pos (hXsh x hx), if_pos (hopt i _)]

/-- With well-shaped inputs, a solver that always answers with an optimal
result of the requested shape, and a positive rank, the loop never aborts
and makes exactly one call per iteration, in iteration order. -/
lemma runLoop_all_optimal (k : ℕ) (solver : Solver)
    (hk : 0 < k)
    (hshape : ∀ (i : ℕ) (sp : Subproblem),
      rows (solver i sp).freeFactorValues = sp.freeShape.1 ∧
      (0 < sp.freeShape.1 → cols (solver i sp).freeFactorValues = sp.freeShape.2))
    (hopt : ∀ (i : ℕ) (sp : Subproblem), (solver i sp).status = SolverStatus.optimal) :
    ∀ (fuel iterNum : ℕ) (s : RunState),
      0 < rows s.A →
      cols s.Y = k →
      rows s.Y = rows s.A →
      (¬iterNum % 2 = 1 → ∃ x, s.X = some x) →
      (∀ x, s.X = some x → rows x = k ∧ cols x = cols s.A) →
      (runLoop k solver fuel iterNum s).1 = none ∧
      (solverCalls (runLoop k solver fuel iterNum s).2.2).map Prod.fst
        = List.range' iterNum fuel := by
  intro fuel
  induction fuel with
  | zero =>
    intro iterNum s _ _ _ _ _
    exact ⟨rfl, rfl⟩
  | succ n ih =>
    intro iterNum s hm hYc hYr hXex hXsh
    obtain ⟨s2, evs1, hstep⟩ := iterStep_succeeds k solver iterNum s hopt hYc hYr hXex hXsh
    obtain ⟨sp, hevs, hst, _, hA, _, hodd, heven⟩ :=
      iterStep_ok k solver iterNum s s2 evs1 hstep
    have hnext := by
      refine ih (iterNum + 1) s2 (by rw [hA]; exact hm) ?_ ?_ ?_ ?_
      · by_cases hpar : iterNum % 2 = 1
        · rw [(hodd hpar).2.2.2.1]
          exact hYc
        · obtain ⟨x, hx, _, _, hfs, hY2, _⟩ := heven hpar
          rw [hY2]
          have hc := (hshape iterNum sp).2
          rw [hfs] at hc
          exact hc hm
      · by_cases hpar : iterNum % 2 = 1
        · rw [(hodd hpar).2.2.2.1, hA]
          exact hYr
        · obtain ⟨x, hx, _, _, hfs, hY2, _⟩ := heven hpar
          rw [hY2, hA]
          have hr := (hshape iterNum sp).1
          rw [hfs] at hr
          exact hr
      · intro _
        by_cases hpar : iterNum % 2 = 1
        · exact ⟨_, (hodd hpar).2.2.2.2⟩
        · obtain ⟨x, _, _, _, _, _, hX2⟩ := heven hpar
          exact ⟨x, hX2⟩
      · intro x hx2
        by_cases hpar : iterNum % 2 = 1
        · obtain ⟨_, _, hfs, _, hX2⟩ := hodd hpar
          rw [hX2] at hx2
          injection hx2 with hx2
          subst hx2
          have hr := (hshape iterNum sp).1
          have hc := (hshape iterNum sp).2
          rw [hfs] at hr hc
          rw [hA]
          exact ⟨hr, hc hk⟩
        · obtain ⟨x0, hx0, _, _, _, _, hX2⟩ := heven hpar
          rw [hX2] at hx2
          injection hx2 with hx2
          subst hx2
          rw [hA]
          exact hXsh x0 hx0
    subst hevs
    constructor
    · simp only [runLoop, hstep]
      exact hnext.1
    · simp only [runLoop, hstep, solverCalls_cons_enter, List.cons_append,
        List.nil_append, solverCalls_cons_call, List.map_cons]
      rw [List.range'_succ, hnext.2]

/-- The always-optimal stub reports optimal on every call. -/
lemma sOpt_optimal :
    ∀ (i : ℕ) (sp : Subproblem), (sOpt i sp).status = SolverStatus.optimal :=
  fun _ _ => rfl

/-- The always-optimal stub returns a free factor of the requested shape
(whenever the requested row count is positive the column count is also
met). -/
lemma sOpt_shape :
    ∀ (i : ℕ) (sp : Subproblem),
      rows (sOpt i sp).freeFactorValues = sp.freeShape.1 ∧
      (0 < sp.freeShape.1 → cols (sOpt i sp).freeFactorValues = sp.freeShape.2) := by
  intro i sp
  constructor
  · simp [sOpt, rows]
  · intro hpos
    rcases hn : sp.freeShape.1 with _ | n
    · omega
    · simp [sOpt, cols, hn, List.replicate_succ]

/-- The always-optimal stub reports a nonnegative objective value. -/
lemma sOpt_obj :
    ∀ (i : ℕ) (sp : Subproblem),
      (sOpt i sp).status = SolverStatus.optimal → 0 ≤ (sOpt i sp).objectiveValue :=
  fun _ _ _ => zero_le_one

/-- The always-optimal stub returns entries bounded below by any `c ≤ 1`. -/
lemma sOpt_ge (c : ℚ) (hc : c ≤ 1) :
    ∀ (i : ℕ) (sp : Subproblem), (sOpt i sp).status = SolverStatus.optimal →
      matGe (sOpt i sp).freeFactorValues c := by
  intro i sp _ r hr v hv
  have hr2 := List.eq_of_mem_replicate hr
  subst hr2
  have hv2 := List.eq_of_mem_replicate hv
  subst hv2
  exact hc

/-- C4: as long as the solver always reports optimal results of the
requested shapes and the inputs are well shaped (positive rank, nonempty
target, conforming initial factor), the loop runs for exactly `maxIters`
iterations — one solver call per iteration `1 .. maxIters`, in order, with
no early, residual-based or tolerance-based termination. -/
theorem C4_runs_full_count (A Y0 : Mat) (k maxIters : ℕ) (solver : Solver)
    (hk : 0 < k) (hm : 0 < rows A)
    (hYc : cols Y0 = k) (hYr : rows Y0 = rows A)
    (hshape : ∀ (i : ℕ) (sp : Subproblem),
      rows (solver i sp).freeFactorValues = sp.freeShape.1 ∧
      (0 < sp.freeShape.1 → cols (solver i sp).freeFactorValues = sp.freeShape.2))
    (hopt : ∀ (i : ℕ) (sp : Subproblem), (solver i sp).status = SolverStatus.optimal) :
    (runFull A Y0 k maxIters solver).1 = none ∧
    (solverCalls (runEvents A Y0 k maxIters solver)).map Prod.fst
      = List.range' 1 maxIters :=
  runLoop_all_optimal k solver hk hshape hopt maxIters 1 (initState A Y0 maxIters)
    hm hYc hYr (fun hc => absurd rfl hc) (fun _ hx => Option.noConfusion hx)

/-- Witness for C4 on a concrete two-iteration run with the always-optimal
stub. -/
theorem C4_runs_full_count_witness :
    (runFull A2 Y2 1 2 sOpt).1 = none ∧
    (solverCalls (runEvents A2 Y2 1 2 sOpt)).map Prod.fst = List.range' 1 2 :=
  C4_runs_full_count A2 Y2 1 2 sOpt (by decide) (by decide) (by decide) (by decide)
    sOpt_shape sOpt_optimal

/-- C6 counterexample: with a `1×1` initial factor against the `2×2` target
(row counts differ) the run does not raise a dedicated shape-mismatch
error before the loop; it enters iteration 1 and then fails with the
library's dimension error.  The solver is invoked zero times. -/
theorem C6_counterexample :
    (runFull A2 Y1 1 3 sOpt).1 = some RunError.dimensionMismatch ∧
    runEvents A2 Y1 1 3 sOpt = [Event.enterIteration 1] ∧
    solverCalls (runEvents A2 Y1 1 3 sOpt) = [] ∧
    ¬rows Y1 = rows A2 :=
  ⟨rfl, rfl, rfl, by decide⟩

/-- C6 amended: when the initial factor's row count differs from the
target's, the run fails with a dimension error raised inside the first loop
iteration, while building the subproblem expression: the loop is entered
(the trace is exactly the entry of iteration 1) and the solver is invoked
zero times; no pre-loop shape check exists. -/
theorem C6_amended_dimension_error (A Y0 : Mat) (k maxIters : ℕ) (solver : Solver)
    (hrows : ¬rows Y0 = rows A) (hiters : 1 ≤ maxIters) :
    (runFull A Y0 k maxIters solver).1 = some RunError.dimensionMismatch ∧
    runEvents A Y0 k maxIters solver = [Event.enterIteration 1] ∧
    solverCalls (runEvents A Y0 k maxIters solver) = [] := by
  obtain ⟨n, rfl⟩ : ∃ n, maxIters = n + 1 := ⟨maxIters - 1, by omega⟩
  have hstep : iterStep k solver 1 (initState A Y0 (n + 1)) =
      (Except.error RunError.dimensionMismatch, []) := by
    simp only [iterStep, initState]
    rw [if_pos trivial, if_neg (fun hc => hrows hc.2)]
  refine ⟨?_, ?_, ?_⟩
  · show (runLoop k solver (n + 1) 1 (initState A Y0 (n + 1))).1 = _
    simp only [runLoop, hstep]
  · show (runLoop k solver (n + 1) 1 (initState A Y0 (n + 1))).2.2 = _
    simp only [runLoop, hstep]
  · show solverCalls (runLoop k solver (n + 1) 1 (initState A Y0 (n + 1))).2.2 = _
    simp only [runLoop, hstep]
    rfl

/-- Witness for the amended C6 at a concrete mismatched input. -/
theorem C6_amended_dimension_error_witness :
    (runFull A2 Y1 1 3 sOpt).1 = some RunError.dimensionMismatch :=
  (C6_amended_dimension_error A2 Y1 1 3 sOpt (by decide) (by decide)).1

/-- The entrywise lower bound `-eps` on the factor bindings is an invariant
of the loop whenever the solver only hands back optimal factors bounded
below by `-eps`. -/
lemma runLoop_matGe (k : ℕ) (solver : Solver) (eps : ℚ)
    (hsolver : ∀ (i : ℕ) (sp : Subproblem),
      (solver i sp).status = SolverStatus.optimal →
      matGe (solver i sp).freeFactorValues (-eps)) :
    ∀ (fuel iterNum : ℕ) (s : RunState),
      matGe s.Y (-eps) →
      (∀ x, s.X = some x → matGe x (-eps)) →
      matGe ((runLoop k solver fuel iterNum s).2.1).Y (-eps) ∧
      ∀ x, ((runLoop k solver fuel iterNum s).2.1).X = some x → matGe x (-eps) := by
  intro fuel
  induction fuel with
  | zero =>
    intro iterNum s hY hX
    exact ⟨hY, hX⟩
  | succ n ih =>
    intro iterNum s hY hX
    rcases hstep : iterStep k solver iterNum s with ⟨r, evs1⟩
    cases r with
    | error e =>
      simp only [runLoop, hstep]
      exact ⟨hY, hX⟩
    | ok s2 =>
      obtain ⟨sp, _, hst, _, _, _, hodd, heven⟩ :=
        iterStep_ok k solver iterNum s s2 evs1 hstep
      simp only [runLoop, hstep]
      apply ih (iterNum + 1) s2
      · by_cases hpar : iterNum % 2 = 1
        · rw [(hodd hpar).2.2.2.1]
          exact hY
        · obtain ⟨x, hx, _, _, _, hY2, _⟩ := heven hpar
          rw [hY2]
          exact hsolver iterNum sp hst
      · intro x hx2
        by_cases hpar : iterNum % 2 = 1
        · rw [(hodd hpar).2.2.2.2] at hx2
          injection hx2 with hx2
          rw [← hx2]
          exact hsolver iterNum sp hst
        · obtain ⟨x0, hx0, _, _, _, _, hX2⟩ := heven hpar
          rw [hX2] at hx2
          injection hx2 with hx2
          rw [← hx2]
          exact hX x0 hx0

/-- C7: nonnegativity up to the solver tolerance.  If the initial factor is
entrywise nonnegative and the solver only hands back optimal factors
entrywise `≥ -eps` (for a tolerance `eps ≥ 0`), then on a successful run
every entry of the returned `Y` and of the returned `X` is `≥ -eps`. -/
theorem C7_nonnegativity (A Y0 : Mat) (k maxIters : ℕ) (solver : Solver) (eps : ℚ)
    (heps : 0 ≤ eps) (hY0 : matGe Y0 0)
    (hsolver : ∀ (i : ℕ) (sp : Subproblem),
      (solver i sp).status = SolverStatus.optimal →
      matGe (solver i sp).freeFactorValues (-eps))
    (Yf : Mat) (Xf : Option Mat) (hist : List ℚ)
    (h : run A Y0 k maxIters solver = Except.ok (Yf, Xf, hist)) :
    matGe Yf (-eps) ∧ ∀ x, Xf = some x → matGe x (-eps) := by
  rcases hfull : runFull A Y0 k maxIters solver with ⟨r, sf, evs⟩
  cases r with
  | some e =>
    simp only [run, hfull] at h
    exact Except.noConfusion h
  | none =>
    simp only [run, hfull] at h
    injection h with h
    have hYf : sf.Y = Yf := congrArg (fun t => t.1) h
    have hXf : sf.X = Xf := congrArg (fun t => t.2.1) h
    have hm := runLoop_matGe k solver eps hsolver maxIters 1 (initState A Y0 maxIters)
      (fun r hr v hv => le_trans (neg_nonpos.mpr heps) (hY0 r hr v hv))
      (fun _ hx => Option.noConfusion hx)
    rw [show runLoop k solver maxIters 1 (initState A Y0 maxIters)
      = runFull A Y0 k maxIters solver from rfl, hfull] at hm
    rw [← hYf, ← hXf]
    exact hm

/-- Witness for C7 on a concrete successful run with tolerance `1e-6`. -/
theorem C7_nonnegativity_witness :
    matGe [[1], [1]] (-(1 / 1000000)) ∧
    ∀ x, (some [[1, 1]] : Option Mat) = some x → matGe x (-(1 / 1000000)) :=
  C7_nonnegativity A2 Y2 1 2 sOpt (1 / 1000000) (by norm_num) (by decide)
    (sOpt_ge (-(1 / 1000000)) (by norm_num)) [[1], [1]] (some [[1, 1]]) [1, 1] rfl

/-- Entrywise nonnegativity of the residual array is an invariant of the
loop whenever the solver reports nonnegative objective values on optimal
statuses (the array starts as all zeros). -/
lemma runLoop_residual_ge (k : ℕ) (solver : Solver)
    (hobj : ∀ (i : ℕ) (sp : Subproblem),
      (solver i sp).status = SolverStatus.optimal → 0 ≤ (solver i sp).objectiveValue) :
    ∀ (fuel iterNum : ℕ) (s : RunState),
      (∀ v ∈ s.residual, 0 ≤ v) →
      ∀ v ∈ ((runLoop k solver fuel iterNum s).2.1).residual, 0 ≤ v := by
  intro fuel
  induction fuel with
  | zero =>
    intro iterNum s hres
    exact hres
  | succ n ih =>
    intro iterNum s hres
    rcases hstep : iterStep k solver iterNum s with ⟨r, evs1⟩
    cases r with
    | error e =>
      simp only [runLoop, hstep]
      exact hres
    | ok s2 =>
      obtain ⟨sp, _, hst, _, _, hres2, _, _⟩ :=
        iterStep_ok k solver iterNum s s2 evs1 hstep
      simp only [runLoop, hstep]
      apply ih (iterNum + 1) s2
      intro v hv
      rw [hres2] at hv
      rcases List.mem_or_eq_of_mem_set hv with hv | hv
      · exact hres v hv
      · rw [hv]
        exact hobj iterNum sp hst

/-- C8: every value stored in the returned residual history is
nonnegative, given the solver contract that reported objective values are
nonnegative on optimal statuses. -/
theorem C8_residuals_nonneg (A Y0 : Mat) (k maxIters : ℕ) (solver : Solver)
    (hobj : ∀ (i : ℕ) (sp : Subproblem),
      (solver i sp).status = SolverStatus.optimal → 0 ≤ (solver i sp).objectiveValue)
    (Yf : Mat) (Xf : Option Mat) (hist : List ℚ)
    (h : run A Y0 k maxIters solver = Except.ok (Yf, Xf, hist)) :
    ∀ v ∈ hist, 0 ≤ v := by
  rcases hfull : runFull A Y0 k maxIters solver with ⟨r, sf, evs⟩
  cases r with
  | some e =>
    simp only [run, hfull] at h
    exact Except.noConfusion h
  | none =>
    simp only [run, hfull] at h
    injection h with h
    have hh : sf.residual = hist := congrArg (fun t => t.2.2) h
    have hm := runLoop_residual_ge k solver hobj maxIters 1 (initState A Y0 maxIters)
      (fun v hv => by rw [List.eq_of_mem_replicate hv])
    rw [show runLoop k solver maxIters 1 (initState A Y0 maxIters)
      = runFull A Y0 k maxIters solver from rfl, hfull] at hm
    rw [← hh]
    exact hm

/-- Witness for C8 on a concrete successful run: the first recorded
residual value is nonnegative. -/
theorem C8_residuals_nonneg_witness : (0 : ℚ) ≤ 1 :=
  C8_residuals_nonneg A2 Y2 1 2 sOpt sOpt_obj [[1], [1]] (some [[1, 1]]) [1, 1] rfl
    1 (by decide)

/-- C10: `Y` is only replaced on even iterations.  Any successful odd
iteration leaves the `Y` binding unchanged, and in particular a successful
run with `maxIters = 1` returns `Y` equal to `Y_init` entrywise. -/
theorem C10_Y_unchanged_on_odd :
    (∀ (k : ℕ) (solver : Solver) (i : ℕ) (s s2 : RunState) (evs : List Event),
      i % 2 = 1 → iterStep k solver i s = (Except.ok s2, evs) → s2.Y = s.Y) ∧
    ∀ (A Y0 : Mat) (k : ℕ) (solver : Solver) (Yf : Mat) (Xf : Option Mat)
      (hist : List ℚ),
      run A Y0 k 1 solver = Except.ok (Yf, Xf, hist) → Yf = Y0 := by
  constructor
  · intro k solver i s s2 evs hpar hstep
    obtain ⟨sp, _, _, _, _, _, hodd, _⟩ := iterStep_ok k solver i s s2 evs hstep
    exact (hodd hpar).2.2.2.1
  · intro A Y0 k solver Yf Xf hist h
    rcases hfull : runFull A Y0 k 1 solver with ⟨r, sf, evs⟩
    cases r with
    | some e =>
      simp only [run, hfull] at h
      exact Except.noConfusion h
    | none =>
      simp only [run, hfull] at h
      injection h with h
      have hYf : sf.Y = Yf := congrArg (fun t => t.1) h
      rcases hstep : iterStep k solver 1 (initState A Y0 1) with ⟨r1, evs1⟩
      cases r1 with
      | error e =>
        have hc : runFull A Y0 k 1 solver
            = (some e, initState A Y0 1, Event.enterIteration 1 :: evs1) := by
          simp only [runFull, runLoop, hstep]
        rw [hc] at hfull
        injection hfull with hc1 _
        exact Option.noConfusion hc1
      | ok s2 =>
        have hc : runFull A Y0 k 1 solver
            = (none, s2, Event.enterIteration 1 :: evs1 ++ []) := by
          simp only [runFull, runLoop, hstep]
        rw [hc] at hfull
        injection hfull with _ h2
        injection h2 with h2 _
        obtain ⟨sp, _, _, _, _, _, hodd, _⟩ :=
          iterStep_ok k solver 1 (initState A Y0 1) s2 evs1 hstep
        have hYs : s2.Y = Y0 := (hodd (by norm_num)).2.2.2.1
        rw [← hYf, ← h2]
        exact hYs

/-- Witness for C10: a concrete successful one-iteration run returns
`Y = Y_init`. -/
theorem C10_Y_unchanged_on_odd_witness : ([[1], [1]] : Mat) = Y2 :=
  C10_Y_unchanged_on_odd.2 A2 Y2 1 sOpt [[1], [1]] (some [[1, 1]]) [1] rfl

end NMF
